import Mathlib

/-!
Shallow embedding of the parallel row-partitioned elementwise raster OR
combinator from `src/whitebox_tools/src/tools/math_stat_analysis/or.rs`
(`Or::run`), together with proofs about the scheduler loop, the per-cell
rule, the result collector and the full engine run.

Floating-point samples are modelled by `F64`: a finite value (a rational,
with IEEE-754 `==` identifying `+0.0` and `-0.0`, which the embedding
inherits by representing both as the rational `0`), the two infinities, and
NaN.  The code performs no floating-point arithmetic on samples — only
IEEE `==`/`!=` comparisons and the constants `0.0` and `1.0` — so this
model is exact for every code path under verification.

The scheduler `while` loop of `Or::run` is embedded as a fuel-indexed
recursion `schedLoop`; its `Bool` component records whether the loop
exited (`true`) or the fuel ran out with the loop still running (`false`),
and its list component records the blocks for which a worker thread was
spawned so far.  Worker arrival order at the mpsc channel is modelled by
quantifying over permutations of the multiset of emitted `RowResult`s.
-/

/-- Model of an `f64` sample as far as the tool observes it: finite values
(rationals), infinities, and NaN. -/
inductive F64 where
  | val (q : ℚ)
  | posInf
  | negInf
  | nan
deriving DecidableEq

/-- IEEE-754 equality `==` on `f64`: NaN is unequal to everything
(itself included); finite values compare as numbers. -/
def F64.ieeeEq : F64 → F64 → Bool
  | F64.val a, F64.val b => decide (a = b)
  | F64.posInf, F64.posInf => true
  | F64.negInf, F64.negInf => true
  | _, _ => false

/-- The constant `0f64` of the source. -/
def f64Zero : F64 := F64.val 0

/-- The constant `1f64` of the source. -/
def f64One : F64 := F64.val 1

/-- An input raster as the engine consumes it: dimensions, nodata sentinel
and a row-major sample store (`in1[(row, col)]` in the source). -/
structure Grid where
  rows : ℕ
  columns : ℕ
  nodata : F64
  sample : ℕ → ℕ → F64

/-- Per-cell rule of the worker closure (or.rs lines 168-176): the output
sample starts as `nodata1` (the row buffer is initialized with
`vec![nodata1; columns]`) and is overwritten exactly when
`z1 != nodata1 && z2 != nodata2`, with `1f64` when `z1 != 0f64 || z2 != 0f64`
and `0f64` otherwise. -/
def orCell (nodata1 nodata2 z1 z2 : F64) : F64 :=
  if (!(F64.ieeeEq z1 nodata1) && !(F64.ieeeEq z2 nodata2)) then
    (if (!(F64.ieeeEq z1 f64Zero) || !(F64.ieeeEq z2 f64Zero)) then f64One else f64Zero)
  else nodata1

/-- One row's buffer as computed by a worker (or.rs lines 166-176):
`columns` samples, column `col` holding `orCell` of the two inputs at
`(row, col)`.  `columns` and `nodata1` come from input 1, `nodata2` from
input 2, exactly as in the source. -/
def workerRow (in1 in2 : Grid) (row : ℕ) : List F64 :=
  (List.range in1.columns).map fun col =>
    orCell in1.nodata in2.nodata (in1.sample row col) (in2.sample row col)

/-- The scheduler `while` loop of or.rs lines 152-161, fuel-indexed.
State: `id` (next worker id), `e` (the `ending_row` variable as tested by
the loop guard), `acc` (blocks spawned so far).  Returns `true` with the
spawned blocks when the loop guard `ending_row < rows` fails; returns
`false` with the blocks spawned so far when the fuel is exhausted with the
loop still running. -/
def schedLoop (rows b : ℕ) : ℕ → ℕ → ℕ → List (ℕ × ℕ) → Bool × List (ℕ × ℕ)
  | 0, _, _, acc => (false, acc)
  | fuel + 1, id, e, acc =>
    if e < rows then
      schedLoop rows b fuel (id + 1) (min (id * b + b) rows)
        (acc ++ [(id * b, min (id * b + b) rows)])
    else (true, acc)

/-- The scheduler as invoked by `Or::run`: `row_block_size = rows / num_procs`,
`ending_row = 0`, `id = 0`, no block spawned yet. -/
def schedBlocks (rows numProcs fuel : ℕ) : Bool × List (ℕ × ℕ) :=
  schedLoop rows (rows / numProcs) fuel 0 0 []

/-- Number of blocks the loop generates when it terminates:
the least `n` with `n * b ≥ rows`, i.e. the ceiling of `rows / b`. -/
def numBlocks (rows b : ℕ) : ℕ := (rows + b - 1) / b

/-- Block with worker id `i`: `starting_row = i * b`,
`ending_row = starting_row + b` clamped to `rows`. -/
def blockOf (b rows i : ℕ) : ℕ × ℕ := (i * b, min (i * b + b) rows)

/-- Closed form of the block list generated by a terminating scheduler run. -/
def blockList (rows b : ℕ) : List (ℕ × ℕ) :=
  (List.range (numBlocks rows b)).map (blockOf b rows)

/-- The stream of `RowResult`s one worker sends for its block (or.rs
lines 165-178): one `(row, data)` pair per row of `[start_row, end_row)`,
emitted in ascending row order. -/
def workerOutput (in1 in2 : Grid) (blk : ℕ × ℕ) : List (ℕ × List F64) :=
  (List.range' blk.1 (blk.2 - blk.1)).map fun row => (row, workerRow in1 in2 row)

/-- All `RowResult`s jointly emitted by the workers of the given blocks. -/
def allResults (in1 in2 : Grid) (blocks : List (ℕ × ℕ)) : List (ℕ × List F64) :=
  blocks.flatMap (workerOutput in1 in2)

/-- `output.set_row_data(row, data)` (or.rs line 186): overwrite the row at
the index carried in the received `RowResult`. -/
def setRowData (out : ℕ → List F64) (res : ℕ × List F64) : ℕ → List F64 :=
  Function.update out res.1 res.2

/-- The collector loop of or.rs lines 184-187: `rows` blocking `recv`s in
arrival order, each written at its carried row index.  If fewer than `rows`
results can ever arrive the loop blocks forever, modelled as `none`. -/
def collectorLoop (rows : ℕ) (arr : List (ℕ × List F64)) (out0 : ℕ → List F64) :
    Option (ℕ → List F64) :=
  if rows ≤ arr.length then some ((arr.take rows).foldl setRowData out0) else none

/-- Error kind surfaced by the engine's own precondition check. -/
inductive EngErr where
  | invalidInput
deriving DecidableEq

/-- Output raster under construction: shaped like input 1, rows written by
the collector. -/
structure OutGrid where
  rows : ℕ
  columns : ℕ
  nodata : F64
  rowData : ℕ → List F64

/-- Observable outcome of one engine run: the error (if the shape
precondition failed), the blocks for which worker threads were spawned,
whether the scheduler loop exited, and the completed output grid (if the
run completed). -/
structure RunOutcome where
  err : Option EngErr
  spawned : List (ℕ × ℕ)
  schedDone : Bool
  output : Option OutGrid

/-- The fresh output grid's row store before any row is written
(`Raster::initialize_using_file` on input 1's shape). -/
def initRowData (in1 : Grid) : ℕ → List F64 :=
  fun _ => List.replicate in1.columns in1.nodata

/-- The core of `Or::run` (or.rs lines 140-195): shape precondition check,
scheduler loop spawning one worker per block, output allocation, collector
loop consuming `rows` results.  `arr` is the arrival order of `RowResult`s
at the channel; theorems constrain it to a permutation of the emitted
results. -/
def orRun (in1 in2 : Grid) (numProcs fuel : ℕ) (arr : List (ℕ × List F64)) :
    RunOutcome :=
  if in1.rows ≠ in2.rows ∨ in1.columns ≠ in2.columns then
    { err := some EngErr.invalidInput, spawned := [], schedDone := false, output := none }
  else
    let sched := schedBlocks in1.rows numProcs fuel
    if sched.1 then
      match collectorLoop in1.rows arr (initRowData in1) with
      | some outData =>
          { err := none, spawned := sched.2, schedDone := true,
            output := some { rows := in1.rows, columns := in1.columns,
                             nodata := in1.nodata, rowData := outData } }
      | none =>
          { err := none, spawned := sched.2, schedDone := true, output := none }
    else
      { err := none, spawned := sched.2, schedDone := false, output := none }

/-- The output grid a completed run produces: every row below `rows` holds
the worker-computed row, every other index keeps the initial store. -/
def completeOutput (in1 in2 : Grid) : OutGrid :=
  { rows := in1.rows, columns := in1.columns, nodata := in1.nodata,
    rowData := fun r =>
      if r < in1.rows then workerRow in1 in2 r
      else List.replicate in1.columns in1.nodata }

/-! ### Scheduler loop lemmas -/

lemma numBlocks_le_iff (rows b i : ℕ) (hb : 1 ≤ b) :
    numBlocks rows b ≤ i ↔ rows ≤ i * b := by
  unfold numBlocks
  rw [Nat.div_le_iff_le_mul_add_pred hb, Nat.mul_comm b i]
  obtain ⟨M, hM⟩ : ∃ M, i * b = M := ⟨_, rfl⟩
  rw [hM]
  omega

lemma lt_numBlocks_iff (rows b i : ℕ) (hb : 1 ≤ b) :
    i < numBlocks rows b ↔ i * b < rows := by
  have h := numBlocks_le_iff rows b i hb
  obtain ⟨M, hM⟩ : ∃ M, i * b = M := ⟨_, rfl⟩
  rw [hM] at h ⊢
  omega

lemma lt_div_mul_add (r b : ℕ) (hb : 1 ≤ b) : r < r / b * b + b := by
  have h1 := Nat.div_add_mod r b
  have h2 : r % b < b := Nat.mod_lt r hb
  rw [Nat.mul_comm b (r / b)] at h1
  obtain ⟨M, hM⟩ : ∃ M, r / b * b = M := ⟨_, rfl⟩
  rw [hM] at h1 ⊢
  omega

lemma schedLoop_true_eq (rows b : ℕ) (hb : 1 ≤ b) :
    ∀ (fuel id e : ℕ) (acc : List (ℕ × ℕ)), e = min (id * b) rows →
      (schedLoop rows b fuel id e acc).1 = true →
      schedLoop rows b fuel id e acc =
        (true, acc ++ (List.range' id (numBlocks rows b - id)).map (blockOf b rows)) := by
  intro fuel
  induction fuel with
  | zero => intro id e acc he h; simp [schedLoop] at h
  | succ n ih =>
    intro id e acc he h
    subst he
    by_cases hlt : min (id * b) rows < rows
    · have hib : id * b < rows := by omega
      have hid : id < numBlocks rows b := (lt_numBlocks_iff rows b id hb).mpr hib
      have hinv : min (id * b + b) rows = min ((id + 1) * b) rows := by
        have : (id + 1) * b = id * b + b := by ring
        rw [this]
      simp only [schedLoop, if_pos hlt] at h ⊢
      rw [ih (id + 1) _ _ hinv ?_]
      · have hnb : numBlocks rows b - id = (numBlocks rows b - (id + 1)) + 1 := by omega
        rw [hnb, List.range'_succ]
        simp [blockOf, List.append_assoc]
      · exact h
    · have hge : rows ≤ id * b := by omega
      have hnb : numBlocks rows b - id = 0 := by
        have := (numBlocks_le_iff rows b id hb).mpr hge
        omega
      simp only [schedLoop, if_neg hlt]
      rw [hnb]
      simp

lemma schedLoop_done_of_fuel (rows b : ℕ) (hb : 1 ≤ b) :
    ∀ (fuel id e : ℕ) (acc : List (ℕ × ℕ)), e = min (id * b) rows →
      numBlocks rows b - id < fuel →
      (schedLoop rows b fuel id e acc).1 = true := by
  intro fuel
  induction fuel with
  | zero => intro id e acc he h; omega
  | succ n ih =>
    intro id e acc he h
    subst he
    by_cases hlt : min (id * b) rows < rows
    · have hib : id * b < rows := by omega
      have hid : id < numBlocks rows b := (lt_numBlocks_iff rows b id hb).mpr hib
      have hinv : min (id * b + b) rows = min ((id + 1) * b) rows := by
        have : (id + 1) * b = id * b + b := by ring
        rw [this]
      simp only [schedLoop, if_pos hlt]
      exact ih (id + 1) _ _ hinv (by omega)
    · simp only [schedLoop, if_neg hlt]

lemma schedLoop_bzero (rows : ℕ) (h1 : 1 ≤ rows) :
    ∀ (fuel id : ℕ) (acc : List (ℕ × ℕ)),
      schedLoop rows 0 fuel id 0 acc = (false, acc ++ List.replicate fuel (0, 0)) := by
  intro fuel
  induction fuel with
  | zero => intro id acc; simp [schedLoop]
  | succ n ih =>
    intro id acc
    have h0 : (0 : ℕ) < rows := h1
    simp only [schedLoop, Nat.mul_zero, Nat.add_zero, Nat.zero_min, if_pos h0]
    rw [ih (id + 1)]
    simp [List.replicate_succ, List.append_assoc]

lemma schedBlocks_done_char (rows w fuel : ℕ)
    (h : (schedBlocks rows w fuel).1 = true) :
    (1 ≤ rows / w ∨ rows = 0) ∧
      (schedBlocks rows w fuel).2 = blockList rows (rows / w) := by
  rcases Nat.eq_zero_or_pos rows with hr | hr
  · subst hr
    cases fuel with
    | zero => simp [schedBlocks, schedLoop] at h
    | succ n =>
      refine ⟨Or.inr rfl, ?_⟩
      have hnb : numBlocks 0 0 = 0 := rfl
      simp [schedBlocks, schedLoop, blockList, Nat.zero_div, hnb]
  · rcases Nat.eq_zero_or_pos (rows / w) with hb | hb
    · exfalso
      have hz := schedLoop_bzero rows hr fuel 0 []
      rw [schedBlocks, hb, hz] at h
      simp at h
    · refine ⟨Or.inl hb, ?_⟩
      have he : (0 : ℕ) = min (0 * (rows / w)) rows := by simp
      have := schedLoop_true_eq rows (rows / w) hb fuel 0 0 [] he
        (by rw [schedBlocks] at h; exact h)
      rw [schedBlocks, this]
      simp [blockList, List.range_eq_range']

/-! ### Properties of the closed-form block list -/

lemma blockList_covers (rows b : ℕ) (hb : 1 ≤ b) (r : ℕ) :
    (∃ p ∈ blockList rows b, p.1 ≤ r ∧ r < p.2) ↔ r < rows := by
  constructor
  · rintro ⟨p, hp, h1, h2⟩
    rcases List.mem_map.mp hp with ⟨i, hi, rfl⟩
    exact lt_of_lt_of_le h2 (min_le_right _ _)
  · intro hr
    refine ⟨blockOf b rows (r / b),
      List.mem_map.mpr ⟨r / b, List.mem_range.mpr ?_, rfl⟩, ?_, ?_⟩
    · exact (lt_numBlocks_iff rows b _ hb).mpr
        (lt_of_le_of_lt (Nat.div_mul_le_self r b) hr)
    · exact Nat.div_mul_le_self r b
    · exact lt_min (lt_div_mul_add r b hb) hr

lemma blockList_pairwise (rows b : ℕ) :
    List.Pairwise (fun p q => p.2 ≤ q.1) (blockList rows b) := by
  unfold blockList
  refine List.Pairwise.map _ (fun i j hij => ?_) (List.pairwise_lt_range _)
  show min (i * b + b) rows ≤ j * b
  calc min (i * b + b) rows ≤ i * b + b := min_le_left _ _
    _ = (i + 1) * b := by ring
    _ ≤ j * b := Nat.mul_le_mul_right b hij

lemma blockList_chain (rows b : ℕ) (hb : 1 ≤ b) :
    List.Chain' (fun p q => p.2 = q.1) (blockList rows b) := by
  rw [List.chain'_iff_get]
  intro i h
  simp only [blockList, List.length_map, List.length_range] at h
  simp only [blockList, List.get_eq_getElem, List.getElem_map, List.getElem_range]
  show min (i * b + b) rows = (i + 1) * b
  have h1 : i + 1 < numBlocks rows b := by omega
  have h2 : (i + 1) * b < rows := (lt_numBlocks_iff rows b _ hb).mp h1
  have h3 : i * b + b = (i + 1) * b := by ring
  rw [h3, min_eq_left (le_of_lt h2)]

lemma blockList_last_clamped (rows b : ℕ) (hb : 1 ≤ b)
    (h : 0 < numBlocks rows b) :
    min ((numBlocks rows b - 1) * b + b) rows = rows := by
  have h1 : (numBlocks rows b - 1) * b + b = numBlocks rows b * b := by
    have h2 : numBlocks rows b - 1 + 1 = numBlocks rows b := by omega
    calc (numBlocks rows b - 1) * b + b = (numBlocks rows b - 1 + 1) * b := by ring
      _ = numBlocks rows b * b := by rw [h2]
  rw [h1]
  exact min_eq_right ((numBlocks_le_iff rows b _ hb).mp le_rfl)

lemma range'_glue (s b rows : ℕ) :
    List.range' s (min (s + b) rows - s) ++
      List.range' (s + b) (rows - (s + b)) =
    List.range' s (rows - s) := by
  rcases le_or_lt (s + b) rows with hc | hc
  · have e1 : min (s + b) rows = s + b := min_eq_left hc
    rw [e1]
    have e2 : s + b - s = b := by omega
    rw [e2]
    have h4 := List.range'_append s b (rows - (s + b)) 1
    simp only [one_mul] at h4
    have e3 : rows - (s + b) + b = rows - s := by omega
    rw [e3] at h4
    exact h4
  · have e1 : min (s + b) rows = rows := min_eq_right (le_of_lt hc)
    have e2 : rows - (s + b) = 0 := by omega
    rw [e1, e2]
    simp

lemma blockList_keys_aux (rows b : ℕ) (hb : 1 ≤ b) :
    ∀ (k i : ℕ), i + k = numBlocks rows b →
      ((List.range' i k).map (blockOf b rows)).flatMap
          (fun p => List.range' p.1 (p.2 - p.1)) =
        List.range' (i * b) (rows - i * b) := by
  intro k
  induction k with
  | zero =>
    intro i hi
    have h1 : rows ≤ i * b := (numBlocks_le_iff rows b i hb).mp (by omega)
    have h2 : rows - i * b = 0 := Nat.sub_eq_zero_of_le h1
    simp [h2]
  | succ k ih =>
    intro i hi
    have hid : i < numBlocks rows b := by omega
    have hib : i * b < rows := (lt_numBlocks_iff rows b i hb).mp hid
    rw [List.range'_succ]
    simp only [List.map_cons, List.flatMap_cons]
    rw [ih (i + 1) (by omega)]
    have h3 : (i + 1) * b = i * b + b := by ring
    rw [h3]
    exact range'_glue (i * b) b rows

lemma blockList_keys (rows b : ℕ) (hb : 1 ≤ b ∨ rows = 0) :
    (blockList rows b).flatMap (fun p => List.range' p.1 (p.2 - p.1)) =
      List.range rows := by
  rcases hb with hb | hr
  · have h := blockList_keys_aux rows b hb (numBlocks rows b) 0 (by omega)
    simp only [Nat.zero_mul, Nat.sub_zero] at h
    rw [blockList, List.range_eq_range' rows, ← h, List.range_eq_range']
  · subst hr
    have hnb : numBlocks 0 b = 0 := by
      unfold numBlocks
      rcases Nat.eq_zero_or_pos b with h0 | h0
      · subst h0; rfl
      · rw [Nat.zero_add]
        exact Nat.div_eq_of_lt (by omega)
    simp [blockList, hnb]

lemma allResults_blockList (in1 in2 : Grid) (b : ℕ)
    (hb : 1 ≤ b ∨ in1.rows = 0) :
    allResults in1 in2 (blockList in1.rows b) =
      (List.range in1.rows).map (fun r => (r, workerRow in1 in2 r)) := by
  unfold allResults workerOutput
  rw [← List.map_flatMap, blockList_keys _ _ hb]

/-! ### Collector lemmas -/

lemma foldl_setRowData_not_mem :
    ∀ (l : List (ℕ × List F64)) (out0 : ℕ → List F64) (r : ℕ),
      r ∉ l.map Prod.fst → l.foldl setRowData out0 r = out0 r := by
  intro l
  induction l with
  | nil => intro out0 r _; rfl
  | cons p t ih =>
    intro out0 r h
    simp only [List.map_cons, List.mem_cons] at h
    push_neg at h
    rw [List.foldl_cons, ih _ r h.2]
    exact Function.update_noteq h.1 _ _

lemma foldl_setRowData_mem :
    ∀ (l : List (ℕ × List F64)) (out0 : ℕ → List F64) (r : ℕ) (v : List F64),
      (l.map Prod.fst).Nodup → (r, v) ∈ l → l.foldl setRowData out0 r = v := by
  intro l
  induction l with
  | nil => intro out0 r v _ h; simp at h
  | cons p t ih =>
    intro out0 r v hnd hm
    simp only [List.map_cons, List.nodup_cons] at hnd
    rw [List.foldl_cons]
    rcases List.mem_cons.mp hm with he | ht
    · subst he
      rw [foldl_setRowData_not_mem t _ r (by simpa using hnd.1)]
      simp [setRowData]
    · exact ih _ r v hnd.2 ht

/-! ### Characterization of a completed engine run -/

lemma orRun_complete_char (in1 in2 : Grid) (np fuel : ℕ)
    (arr : List (ℕ × List F64))
    (hshape : in1.rows = in2.rows ∧ in1.columns = in2.columns)
    (hdone : (schedBlocks in1.rows np fuel).1 = true)
    (harr : List.Perm arr (allResults in1 in2 (schedBlocks in1.rows np fuel).2)) :
    orRun in1 in2 np fuel arr =
      { err := none, spawned := (schedBlocks in1.rows np fuel).2,
        schedDone := true, output := some (completeOutput in1 in2) } := by
  obtain ⟨hchar0, hchar⟩ := schedBlocks_done_char in1.rows np fuel hdone
  have hall : allResults in1 in2 (schedBlocks in1.rows np fuel).2 =
      (List.range in1.rows).map (fun r => (r, workerRow in1 in2 r)) := by
    rw [hchar]; exact allResults_blockList in1 in2 _ hchar0
  have hlen : arr.length = in1.rows := by
    have h := harr.length_eq
    rw [hall] at h
    simpa using h
  have hkeysperm : List.Perm (arr.map Prod.fst) (List.range in1.rows) := by
    have h := harr.map Prod.fst
    rw [hall, List.map_map] at h
    have hcompid : (Prod.fst ∘ fun r : ℕ => (r, workerRow in1 in2 r)) = id := rfl
    rw [hcompid, List.map_id] at h
    exact h
  have hnd : (arr.map Prod.fst).Nodup := hkeysperm.nodup_iff.mpr (List.nodup_range _)
  have hcond : ¬(in1.rows ≠ in2.rows ∨ in1.columns ≠ in2.columns) := by
    simp [hshape.1, hshape.2]
  have hcoll : collectorLoop in1.rows arr (initRowData in1) =
      some (arr.foldl setRowData (initRowData in1)) := by
    rw [collectorLoop, if_pos (le_of_eq hlen.symm), ← hlen, List.take_length]
  have hfun : arr.foldl setRowData (initRowData in1) = (completeOutput in1 in2).rowData := by
    funext r
    by_cases hr : r < in1.rows
    · have hmem : (r, workerRow in1 in2 r) ∈ arr := by
        rw [harr.mem_iff, hall]
        exact List.mem_map.mpr ⟨r, List.mem_range.mpr hr, rfl⟩
      rw [foldl_setRowData_mem arr _ r _ hnd hmem]
      simp [completeOutput, hr]
    · have hnmem : r ∉ arr.map Prod.fst := by
        intro hc
        exact hr (List.mem_range.mp (hkeysperm.mem_iff.mp hc))
      rw [foldl_setRowData_not_mem arr _ r hnmem]
      simp [completeOutput, hr, initRowData]
  simp only [orRun, if_neg hcond, hdone, if_true, hcoll, hfun]
  rfl

/-! ### Claim theorems -/

/-- Claim C2: if the two input grids differ in row count or column count,
the engine fails with an InvalidInput error before any worker thread is
spawned and before any output grid is created; no partial output is
produced. -/
theorem or_shape_mismatch_fails_fast (in1 in2 : Grid) (np fuel : ℕ)
    (arr : List (ℕ × List F64))
    (h : in1.rows ≠ in2.rows ∨ in1.columns ≠ in2.columns) :
    orRun in1 in2 np fuel arr =
      { err := some EngErr.invalidInput, spawned := [], schedDone := false,
        output := none } := by
  simp only [orRun, if_pos h]

/-- Claim C3 (counterexample): with rows = 1 and num_workers = 2 the block
size is 1 / 2 = 0, so after 30 iterations the scheduler loop is still
running and every spawned block is the empty block (0, 0) — the blocks do
not partition the range with row 0 in it, refuting the claim for every
rows ≥ 0 and num_workers ≥ 1. -/
theorem or_sched_partition_cx :
    schedBlocks 1 2 30 = (false, List.replicate 30 (0, 0)) := by decide

/-- Claim C3 (amended): for rows ≥ 0 and 1 ≤ num_workers with
num_workers ≤ rows (or rows = 0), the scheduler loop terminates and its
blocks partition the half-open range below rows exactly: their union is
that range, they are pairwise disjoint (sorted end-before-start), and
consecutive blocks are contiguous. -/
theorem or_sched_partitions_when_enough_rows (rows w : ℕ) (hw : 1 ≤ w)
    (hcase : w ≤ rows ∨ rows = 0) :
    (schedBlocks rows w (rows + 1)).1 = true ∧
    (∀ r, (∃ p ∈ (schedBlocks rows w (rows + 1)).2, p.1 ≤ r ∧ r < p.2) ↔
      r < rows) ∧
    List.Pairwise (fun p q => p.2 ≤ q.1) (schedBlocks rows w (rows + 1)).2 ∧
    List.Chain' (fun p q => p.2 = q.1) (schedBlocks rows w (rows + 1)).2 := by
  rcases hcase with hwr | hr
  · have hb : 1 ≤ rows / w := (Nat.one_le_div_iff hw).mpr hwr
    have hnb_le : numBlocks rows (rows / w) ≤ rows :=
      (numBlocks_le_iff rows (rows / w) rows hb).mpr
        (Nat.le_mul_of_pos_right rows hb)
    have hdone : (schedBlocks rows w (rows + 1)).1 = true := by
      rw [schedBlocks]
      exact schedLoop_done_of_fuel rows (rows / w) hb (rows + 1) 0 0 []
        (by simp) (by omega)
    obtain ⟨_, hchar⟩ := schedBlocks_done_char rows w (rows + 1) hdone
    refine ⟨hdone, ?_, ?_, ?_⟩
    · intro r
      rw [hchar]
      exact blockList_covers rows (rows / w) hb r
    · rw [hchar]
      exact blockList_pairwise rows (rows / w)
    · rw [hchar]
      exact blockList_chain rows (rows / w) hb
  · subst hr
    refine ⟨?_, ?_, ?_, ?_⟩ <;> simp [schedBlocks, schedLoop]

/-- Claim C3 (amended, witness): concrete instance rows = 4, workers = 2. -/
theorem or_sched_partitions_when_enough_rows_witness :
    (1 : ℕ) ≤ 2 ∧ ((2 : ℕ) ≤ 4 ∨ (4 : ℕ) = 0) ∧
    ((schedBlocks 4 2 (4 + 1)).1 = true ∧
     (∀ r, (∃ p ∈ (schedBlocks 4 2 (4 + 1)).2, p.1 ≤ r ∧ r < p.2) ↔
       r < 4) ∧
     List.Pairwise (fun p q => p.2 ≤ q.1) (schedBlocks 4 2 (4 + 1)).2 ∧
     List.Chain' (fun p q => p.2 = q.1) (schedBlocks 4 2 (4 + 1)).2) :=
  ⟨by decide, Or.inl (by decide),
    or_sched_partitions_when_enough_rows 4 2 (by decide) (Or.inl (by decide))⟩

/-- Claim C4 (counterexample): with rows = 3 and num_workers = 2 the block
size is 1 and the loop generates three blocks with worker ids 0, 1 and 2 —
more blocks than workers, so the claim that at most one block per worker-id
in the range below num_workers is produced fails. -/
theorem or_sched_block_count_cx :
    schedBlocks 3 2 10 = (true, [(0, 1), (1, 2), (2, 3)]) ∧
    2 < (schedBlocks 3 2 10).2.length := by decide

/-- Claim C4 (amended): for 1 ≤ num_workers ≤ rows, with
b = rows / num_workers the scheduler produces exactly one block for every
id with id * b < rows — this count is the ceiling of rows / b and can
exceed num_workers — each block being the range from id * b to
id * b + b clamped to rows; every non-final block has size exactly b and
the final block's end is clamped to exactly rows. -/
theorem or_sched_block_closed_form (rows w : ℕ) (hw : 1 ≤ w)
    (hwr : w ≤ rows) :
    schedBlocks rows w (rows + 1) =
      (true, (List.range (numBlocks rows (rows / w))).map
        (blockOf (rows / w) rows)) ∧
    (∀ i, i < numBlocks rows (rows / w) ↔ i * (rows / w) < rows) ∧
    (∀ i, i + 1 < numBlocks rows (rows / w) →
      min (i * (rows / w) + rows / w) rows - i * (rows / w) = rows / w) ∧
    (0 < numBlocks rows (rows / w) →
      min ((numBlocks rows (rows / w) - 1) * (rows / w) + rows / w) rows =
        rows) := by
  have hb : 1 ≤ rows / w := (Nat.one_le_div_iff hw).mpr hwr
  have hnb_le : numBlocks rows (rows / w) ≤ rows :=
    (numBlocks_le_iff rows (rows / w) rows hb).mpr
      (Nat.le_mul_of_pos_right rows hb)
  have hdone : (schedBlocks rows w (rows + 1)).1 = true := by
    rw [schedBlocks]
    exact schedLoop_done_of_fuel rows (rows / w) hb (rows + 1) 0 0 []
      (by simp) (by omega)
  obtain ⟨_, hchar⟩ := schedBlocks_done_char rows w (rows + 1) hdone
  refine ⟨Prod.ext hdone hchar, ?_, ?_, ?_⟩
  · intro i
    exact lt_numBlocks_iff rows (rows / w) i hb
  · intro i hi
    have h2 : (i + 1) * (rows / w) < rows :=
      (lt_numBlocks_iff rows (rows / w) _ hb).mp hi
    have h3 : i * (rows / w) + rows / w = (i + 1) * (rows / w) := by ring
    rw [h3, min_eq_left (le_of_lt h2), ← h3, Nat.add_sub_cancel_left]
  · intro h0
    exact blockList_last_clamped rows (rows / w) hb h0

/-- Claim C4 (amended, witness): concrete instance rows = 10, workers = 4,
block size 2, five blocks. -/
theorem or_sched_block_closed_form_witness :
    (1 : ℕ) ≤ 4 ∧ (4 : ℕ) ≤ 10 ∧
    (schedBlocks 10 4 (10 + 1) =
      (true, (List.range (numBlocks 10 (10 / 4))).map
        (blockOf (10 / 4) 10)) ∧
     (∀ i, i < numBlocks 10 (10 / 4) ↔ i * (10 / 4) < 10) ∧
     (∀ i, i + 1 < numBlocks 10 (10 / 4) →
       min (i * (10 / 4) + 10 / 4) 10 - i * (10 / 4) = 10 / 4) ∧
     (0 < numBlocks 10 (10 / 4) →
       min ((numBlocks 10 (10 / 4) - 1) * (10 / 4) + 10 / 4) 10 = 10)) :=
  ⟨by decide, by decide, or_sched_block_closed_form 10 4 (by decide) (by decide)⟩

/-- Claim C5 (code bug): when 1 ≤ rows < num_workers, the block size
rows / num_workers is 0, the variable ending_row is recomputed as 0 on
every iteration, and the scheduler loop never terminates — for every
amount of fuel it is still running — while spawning one worker for the
zero-length block (0, 0) on every iteration.  This contradicts the claim
that block generation terminates once ending_row reaches rows and that no
worker is spawned for a zero-length block. -/
theorem or_sched_diverges_blocksize_zero (rows w : ℕ) (h1 : 1 ≤ rows)
    (h2 : rows < w) (fuel id : ℕ) (acc : List (ℕ × ℕ)) :
    schedLoop rows (rows / w) fuel id 0 acc =
      (false, acc ++ List.replicate fuel (0, 0)) := by
  rw [Nat.div_eq_of_lt h2]
  exact schedLoop_bzero rows h1 fuel id acc

/-- Claim C5 (witness): rows = 1, workers = 2, four loop iterations spawn
four workers with empty blocks and the loop is still running. -/
theorem or_sched_diverges_blocksize_zero_witness :
    schedLoop 1 (1 / 2) 4 0 0 [] = (false, [] ++ List.replicate 4 (0, 0)) :=
  or_sched_diverges_blocksize_zero 1 2 (by decide) (by decide) 4 0 []

/-- Claim C1: for every cell of two same-shaped input grids, on a completed
run the output cell is nodata1 when either input sample equals its grid's
nodata sentinel, and otherwise 1.0 exactly when either sample is nonzero,
else 0.0. -/
theorem or_output_cell_rule (in1 in2 : Grid) (np fuel : ℕ)
    (arr : List (ℕ × List F64))
    (hshape : in1.rows = in2.rows ∧ in1.columns = in2.columns)
    (hdone : (schedBlocks in1.rows np fuel).1 = true)
    (harr : List.Perm arr (allResults in1 in2 (schedBlocks in1.rows np fuel).2))
    (row col : ℕ) (hrow : row < in1.rows) (hcol : col < in1.columns) :
    ∃ G, (orRun in1 in2 np fuel arr).output = some G ∧
      (G.rowData row)[col]? =
        some (if F64.ieeeEq (in1.sample row col) in1.nodata ||
                 F64.ieeeEq (in2.sample row col) in2.nodata then in1.nodata
              else if !(F64.ieeeEq (in1.sample row col) f64Zero) ||
                      !(F64.ieeeEq (in2.sample row col) f64Zero) then f64One
              else f64Zero) := by
  refine ⟨completeOutput in1 in2, ?_, ?_⟩
  · rw [orRun_complete_char in1 in2 np fuel arr hshape hdone harr]
  · simp only [completeOutput, if_pos hrow]
    rw [workerRow, List.getElem?_map, List.getElem?_range hcol]
    simp only [Option.map_some']
    congr 1
    rw [orCell]
    cases h1 : F64.ieeeEq (in1.sample row col) in1.nodata <;>
      cases h2 : F64.ieeeEq (in2.sample row col) in2.nodata <;> simp

/-- Claim C6: on successful completion every row index below rows has been
written exactly once — the arrival stream carries each row index exactly
once, the collector consumes exactly rows results, and each output row
holds the worker-computed data for its own index. -/
theorem or_rows_written_exactly_once (in1 in2 : Grid) (np fuel : ℕ)
    (arr : List (ℕ × List F64))
    (hshape : in1.rows = in2.rows ∧ in1.columns = in2.columns)
    (hdone : (schedBlocks in1.rows np fuel).1 = true)
    (harr : List.Perm arr (allResults in1 in2 (schedBlocks in1.rows np fuel).2)) :
    (∀ r, r < in1.rows → (arr.map Prod.fst).count r = 1) ∧
    arr.length = in1.rows ∧
    (∃ G, (orRun in1 in2 np fuel arr).output = some G ∧
      ∀ r, r < in1.rows → G.rowData r = workerRow in1 in2 r) := by
  obtain ⟨hchar0, hchar⟩ := schedBlocks_done_char in1.rows np fuel hdone
  have hall : allResults in1 in2 (schedBlocks in1.rows np fuel).2 =
      (List.range in1.rows).map (fun r => (r, workerRow in1 in2 r)) := by
    rw [hchar]
    exact allResults_blockList in1 in2 _ hchar0
  have hkeysperm : List.Perm (arr.map Prod.fst) (List.range in1.rows) := by
    have h := harr.map Prod.fst
    rw [hall, List.map_map] at h
    have hcompid : (Prod.fst ∘ fun r : ℕ => (r, workerRow in1 in2 r)) = id := rfl
    rw [hcompid, List.map_id] at h
    exact h
  refine ⟨?_, ?_, completeOutput in1 in2, ?_, ?_⟩
  · intro r hr
    rw [hkeysperm.count_eq]
    exact List.count_eq_one_of_mem (List.nodup_range _) (List.mem_range.mpr hr)
  · have h := harr.length_eq
    rw [hall] at h
    simpa using h
  · rw [orRun_complete_char in1 in2 np fuel arr hshape hdone harr]
  · intro r hr
    simp [completeOutput, hr]

/-- Claim C7 (amended): for fixed same-shaped inputs, any two completed
runs of the engine — with any worker counts, any fuel, and any arrival
orders of the emitted RowResults — produce equal outputs.  The completion
hypotheses are necessary: when num_workers exceeds a positive row count
the scheduler diverges and that run produces no output at all. -/
theorem or_run_deterministic (in1 in2 : Grid) (w1 w2 f1 f2 : ℕ)
    (a1 a2 : List (ℕ × List F64))
    (hshape : in1.rows = in2.rows ∧ in1.columns = in2.columns)
    (hd1 : (schedBlocks in1.rows w1 f1).1 = true)
    (ha1 : List.Perm a1 (allResults in1 in2 (schedBlocks in1.rows w1 f1).2))
    (hd2 : (schedBlocks in1.rows w2 f2).1 = true)
    (ha2 : List.Perm a2 (allResults in1 in2 (schedBlocks in1.rows w2 f2).2)) :
    (orRun in1 in2 w1 f1 a1).output = (orRun in1 in2 w2 f2 a2).output := by
  rw [orRun_complete_char in1 in2 w1 f1 a1 hshape hd1 ha1,
      orRun_complete_char in1 in2 w2 f2 a2 hshape hd2 ha2]

/-- Claim C8: with zero rows the scheduler spawns no block, the collector
consumes nothing — it completes even on an empty arrival stream — and the
engine returns a zero-row output grid whose row store is untouched. -/
theorem or_run_zero_rows (in1 in2 : Grid) (np fuel : ℕ)
    (arr : List (ℕ × List F64)) (hr : in1.rows = 0)
    (hshape : in1.rows = in2.rows ∧ in1.columns = in2.columns)
    (hfuel : 1 ≤ fuel) :
    orRun in1 in2 np fuel arr =
      { err := none, spawned := [], schedDone := true,
        output := some { rows := in1.rows, columns := in1.columns,
                         nodata := in1.nodata, rowData := initRowData in1 } } := by
  have hcond : ¬(in1.rows ≠ in2.rows ∨ in1.columns ≠ in2.columns) := by
    simp [hshape.1, hshape.2]
  obtain ⟨k, rfl⟩ : ∃ k, fuel = k + 1 := ⟨fuel - 1, by omega⟩
  have hsched : schedBlocks in1.rows np (k + 1) = (true, []) := by
    rw [schedBlocks, hr]
    simp [schedLoop]
  have hcoll : collectorLoop in1.rows arr (initRowData in1) =
      some (initRowData in1) := by
    rw [collectorLoop, hr]
    simp
  simp only [orRun, if_neg hcond, hsched, hcoll]
  rfl

/-- Claim C9 (counterexample): with nodata sentinels -9999, input samples
NaN and -9999 give the output cell -9999, not 1.0 — a NaN sample does not
force the cell to 1.0 when the other sample equals its nodata sentinel. -/
theorem or_nan_nodata_cx :
    orCell (F64.val (-9999)) (F64.val (-9999)) F64.nan (F64.val (-9999)) =
        F64.val (-9999) ∧
      F64.val (-9999) ≠ f64One := by decide

/-- Claim C9 (amended): for every cell where either input sample is NaN,
the NaN sample itself never matches a nodata sentinel and is truthy: the
output cell is 1.0 unless the other sample equals its grid's sentinel, in
which case the output cell is nodata1.  In particular a NaN cell never
yields 0.0 and NaN alone is never propagated as missing data. -/
theorem or_nan_truthy_unless_other_nodata (n1 n2 z1 z2 : F64)
    (hnan : z1 = F64.nan ∨ z2 = F64.nan) :
    orCell n1 n2 z1 z2 =
      (if F64.ieeeEq z1 n1 || F64.ieeeEq z2 n2 then n1 else f64One) := by
  have hnanL : ∀ x, F64.ieeeEq F64.nan x = false := by
    intro x
    cases x <;> rfl
  rcases hnan with h | h <;> subst h
  · rw [orCell]
    cases h2 : F64.ieeeEq z2 n2 <;> simp [hnanL]
  · rw [orCell]
    cases h1 : F64.ieeeEq z1 n1 <;> simp [hnanL]

/-- Claim C9 (amended, witness): NaN against the ordinary sample 5. -/
theorem or_nan_truthy_unless_other_nodata_witness :
    (F64.nan = F64.nan ∨ (F64.val 5 : F64) = F64.nan) ∧
    orCell (F64.val (-9999)) (F64.val (-9999)) F64.nan (F64.val 5) =
      (if F64.ieeeEq F64.nan (F64.val (-9999)) ||
          F64.ieeeEq (F64.val 5) (F64.val (-9999)) then F64.val (-9999)
       else f64One) :=
  ⟨Or.inl rfl,
    or_nan_truthy_unless_other_nodata (F64.val (-9999)) (F64.val (-9999))
      F64.nan (F64.val 5) (Or.inl rfl)⟩

/-- Claim C10: every value of a worker-emitted row buffer is nodata1, 0.0
or 1.0 — for all possible input samples. -/
theorem or_output_value_range (in1 in2 : Grid) (row : ℕ) (v : F64)
    (hv : v ∈ workerRow in1 in2 row) :
    v = in1.nodata ∨ v = f64Zero ∨ v = f64One := by
  rcases List.mem_map.mp hv with ⟨col, _, rfl⟩
  rw [orCell]
  split
  · split
    · right; right; rfl
    · right; left; rfl
  · left; rfl

/-! ### Concrete instances for witnesses -/

/-- A concrete 2-by-2 input grid with nodata -9999. -/
def gridA : Grid :=
  { rows := 2, columns := 2, nodata := F64.val (-9999),
    sample := fun r c => if r = 0 ∧ c = 0 then f64Zero else F64.val 1 }

/-- A concrete 2-by-2 input grid with nodata -9999 and one nodata cell. -/
def gridB : Grid :=
  { rows := 2, columns := 2, nodata := F64.val (-9999),
    sample := fun r c => if r = 1 ∧ c = 1 then F64.val (-9999) else f64Zero }

/-- Arrival order for a single-worker run on the concrete grids: emission
order. -/
def arrA : List (ℕ × List F64) :=
  allResults gridA gridB (schedBlocks gridA.rows 1 5).2

/-- Arrival order for a two-worker run on the concrete grids: reversed
emission order. -/
def arrB : List (ℕ × List F64) :=
  (allResults gridA gridB (schedBlocks gridA.rows 2 5).2).reverse

/-- A concrete 3-by-3 grid. -/
def grid3x3 : Grid :=
  { rows := 3, columns := 3, nodata := F64.val (-9999), sample := fun _ _ => f64Zero }

/-- A concrete 3-by-4 grid. -/
def grid3x4 : Grid :=
  { rows := 3, columns := 4, nodata := F64.val (-9999), sample := fun _ _ => f64Zero }

/-- A concrete zero-row grid. -/
def gridE1 : Grid :=
  { rows := 0, columns := 3, nodata := F64.val (-9999), sample := fun _ _ => f64Zero }

/-- A concrete 1-by-1 grid of zeros. -/
def gridC : Grid :=
  { rows := 1, columns := 1, nodata := F64.val (-9999), sample := fun _ _ => f64Zero }

/-- Arrival order for a single-worker run on the 1-by-1 grid: emission
order. -/
def arrC : List (ℕ × List F64) :=
  allResults gridC gridC (schedBlocks gridC.rows 1 5).2

/-- Claim C1 (witness): on the concrete grids, the completed single-worker
run holds 1.0 at cell (0, 1). -/
theorem or_output_cell_rule_witness :
    (gridA.rows = gridB.rows ∧ gridA.columns = gridB.columns) ∧
    (schedBlocks gridA.rows 1 5).1 = true ∧
    (0 : ℕ) < gridA.rows ∧ (1 : ℕ) < gridA.columns ∧
    (∃ G, (orRun gridA gridB 1 5 arrA).output = some G ∧
      (G.rowData 0)[1]? = some f64One) :=
  ⟨⟨rfl, rfl⟩, by decide, by decide, by decide,
    or_output_cell_rule gridA gridB 1 5 arrA ⟨rfl, rfl⟩ (by decide)
      (List.Perm.refl _) 0 1 (by decide) (by decide)⟩

/-- Claim C2 (witness): a 3-by-3 grid against a 3-by-4 grid fails fast. -/
theorem or_shape_mismatch_fails_fast_witness :
    (grid3x3.rows ≠ grid3x4.rows ∨ grid3x3.columns ≠ grid3x4.columns) ∧
    orRun grid3x3 grid3x4 4 10 [] =
      { err := some EngErr.invalidInput, spawned := [], schedDone := false,
        output := none } :=
  ⟨Or.inr (by decide),
    or_shape_mismatch_fails_fast grid3x3 grid3x4 4 10 [] (Or.inr (by decide))⟩

/-- Claim C6 (witness): the concrete single-worker run writes both rows
exactly once. -/
theorem or_rows_written_exactly_once_witness :
    (gridA.rows = gridB.rows ∧ gridA.columns = gridB.columns) ∧
    (schedBlocks gridA.rows 1 5).1 = true ∧
    ((∀ r, r < gridA.rows → (arrA.map Prod.fst).count r = 1) ∧
     arrA.length = gridA.rows ∧
     (∃ G, (orRun gridA gridB 1 5 arrA).output = some G ∧
       ∀ r, r < gridA.rows → G.rowData r = workerRow gridA gridB r)) :=
  ⟨⟨rfl, rfl⟩, by decide,
    or_rows_written_exactly_once gridA gridB 1 5 arrA ⟨rfl, rfl⟩ (by decide)
      (List.Perm.refl _)⟩

/-- Claim C7 (counterexample): on the 1-by-1 grid, a 1-worker run
completes and yields an output grid, but a 2-worker run has block size
1 / 2 = 0, its scheduler never exits within the given fuel (nor any other,
by the block-size-zero divergence), and it yields no output — so the two
runs' outputs differ, refuting the claim for every choice of
num_workers ≥ 1. -/
theorem or_run_deterministic_cx :
    (orRun gridC gridC 1 5 arrC).output ≠ (orRun gridC gridC 2 20 []).output := by
  have h1 : (orRun gridC gridC 1 5 arrC).output =
      some (completeOutput gridC gridC) := by
    rw [orRun_complete_char gridC gridC 1 5 arrC ⟨rfl, rfl⟩ (by decide)
      (List.Perm.refl _)]
  have h2 : (orRun gridC gridC 2 20 []).output = none := rfl
  rw [h1, h2]
  simp

/-- Claim C7 (amended, witness): one worker with in-order arrival and two
workers with reversed arrival produce the same output on the concrete
grids. -/
theorem or_run_deterministic_witness :
    (orRun gridA gridB 1 5 arrA).output = (orRun gridA gridB 2 5 arrB).output :=
  or_run_deterministic gridA gridB 1 2 5 5 arrA arrB ⟨rfl, rfl⟩
    (by decide) (List.Perm.refl _) (by decide) (List.reverse_perm _)

/-- Claim C8 (witness): the zero-row grid with an empty arrival stream. -/
theorem or_run_zero_rows_witness :
    gridE1.rows = 0 ∧
    (gridE1.rows = gridE1.rows ∧ gridE1.columns = gridE1.columns) ∧
    (1 : ℕ) ≤ 2 ∧
    orRun gridE1 gridE1 4 2 [] =
      { err := none, spawned := [], schedDone := true,
        output := some { rows := gridE1.rows, columns := gridE1.columns,
                         nodata := gridE1.nodata, rowData := initRowData gridE1 } } :=
  ⟨rfl, ⟨rfl, rfl⟩, by decide,
    or_run_zero_rows gridE1 gridE1 4 2 [] rfl ⟨rfl, rfl⟩ (by decide)⟩

/-- Claim C10 (witness): the single cell of the all-zero concrete grid is
in the allowed value set. -/
theorem or_output_value_range_witness :
    f64Zero ∈ workerRow gridC gridC 0 ∧
    (f64Zero = gridC.nodata ∨ f64Zero = f64Zero ∨ f64Zero = f64One) :=
  ⟨by decide, or_output_value_range gridC gridC 0 f64Zero (by decide)⟩
